import Mathlib

/-!
Verification development for the `gear` response finalization component
(`response.go`).  The Go code is shallowly embedded: the header map becomes an
association list from keys to value lists, hook closures become labelled
transformers of the `(status, body)` pair they are documented to mutate, and
the observable side effects of a commit (hook executions, the transport
header commit, the detached after-hook dispatch, raw writes) are recorded in
an explicit event trace.
-/

namespace Gear

/-- One entry of the header map: a key together with its ordered value list,
mirroring Go's `http.Header` (`map[string][]string`). -/
abbrev HeaderEntries := List (String × List String)

/-- The header store delegate: a key-ordered multi-value string dictionary. -/
structure Header where
  entries : HeaderEntries
deriving DecidableEq

/-- Look up the value list of a key (Go `h[key]`; missing key gives `[]`). -/
def getValues : HeaderEntries → String → List String
  | [], _ => []
  | kv :: t, k => if kv.1 = k then kv.2 else getValues t k

/-- Go `h[key] = []string{value}` — replace the entry for `k` by `[v]`,
inserting it when absent. -/
def setEntry : HeaderEntries → String → String → HeaderEntries
  | [], k, v => [(k, [v])]
  | kv :: t, k, v => if kv.1 = k then (k, [v]) :: t else kv :: setEntry t k v

/-- Go `h[key] = append(h[key], value)` — append `v` to the entry for `k`,
inserting a fresh entry when absent. -/
def addEntry : HeaderEntries → String → String → HeaderEntries
  | [], k, v => [(k, [v])]
  | kv :: t, k, v =>
    if kv.1 = k then (kv.1, kv.2 ++ [v]) :: t else kv :: addEntry t k v

/-- `http.Header.Get`: first value associated with the key, or `""`. -/
def Header.get (h : Header) (k : String) : String :=
  match getValues h.entries k with
  | [] => ""
  | v :: _ => v

/-- `http.Header.Set`. -/
def Header.set (h : Header) (k v : String) : Header :=
  ⟨setEntry h.entries k v⟩

/-- `http.Header.Add`. -/
def Header.add (h : Header) (k v : String) : Header :=
  ⟨addEntry h.entries k v⟩

/-- `http.Header.Del`. -/
def Header.del (h : Header) (k : String) : Header :=
  ⟨h.entries.filter (fun kv => kv.1 ≠ k)⟩

/-- All values associated with a key. -/
def Header.values (h : Header) (k : String) : List String :=
  getValues h.entries k

/-- A registered hook: the Go code stores `func()` closures; the spec allows a
hook to read and mutate `status` and `body`, so a hook is embedded as a
labelled transformer of that pair.  The label identifies the hook in the
event trace. -/
structure Hook where
  label : String
  action : Int → Option (List Nat) → Int × Option (List Nat)

/-- Run hooks front-to-back, threading `(status, body)` and collecting the
labels in execution order. -/
def runHooksFwd : List Hook → Int → Option (List Nat) →
    Int × Option (List Nat) × List String
  | [], s, b => (s, b, [])
  | h :: t, s, b =>
    let sb := h.action s b
    let r := runHooksFwd t sb.1 sb.2
    (r.1, r.2.1, h.label :: r.2.2)

/-- `runHooks(hooks []func())` from the source: iterate from the last index
down to 0, i.e. run the reversed list front-to-back (LIFO order). -/
def runHooks (hooks : List Hook) (s : Int) (b : Option (List Nat)) :
    Int × Option (List Nat) × List String :=
  runHooksFwd hooks.reverse s b

/-- Modelled from the spec: the set of recognized/valid HTTP status codes
used by `IsStatusCode` (the function itself lives outside `src/`); these are
the IANA-assigned codes as in Go's `net/http` status table. -/
def validStatusCodes : List Int :=
  [100, 101, 102, 103,
   200, 201, 202, 203, 204, 205, 206, 207, 208, 226,
   300, 301, 302, 303, 304, 305, 307, 308,
   400, 401, 402, 403, 404, 405, 406, 407, 408, 409, 410, 411, 412, 413,
   414, 415, 416, 417, 418, 421, 422, 423, 424, 425, 426, 428, 429, 431, 451,
   500, 501, 502, 503, 504, 505, 506, 507, 508, 510, 511]

/-- Modelled from the spec: `IsStatusCode(status)` — whether `status` is a
recognized/valid HTTP status code. -/
def IsStatusCode (status : Int) : Bool :=
  validStatusCodes.contains status

/-- Modelled from the spec: `isEmptyStatus(status)` — the "no body allowed"
status class (1xx, 204, 304). -/
def isEmptyStatus (status : Int) : Bool :=
  (100 ≤ status && status < 200) || status = 204 || status = 304

/-- The status/body normalization applied during commit
(`response.go` lines 120–131): an unrecognized status becomes 200 when a
body is present and 421 otherwise; a recognized body-less status discards
the body; anything else is untouched. -/
def statusNormalizer (status : Int) (body : Option (List Nat)) :
    Int × Option (List Nat) :=
  if ¬ IsStatusCode status then
    match body with
    | some b => (200, some b)
    | none => (421, none)
  else if isEmptyStatus status then (status, none)
  else (status, body)

/-- Observable side effects of the response object, in order. -/
inductive Event where
  /-- one before-commit (`afterHooks`) hook executed, identified by label -/
  | hookRun (label : String)
  /-- `r.rw.WriteHeader(status)`: the transport header commit -/
  | headerCommit (status : Int)
  /-- `go runHooks(r.endHooks)`: detached dispatch of the after-commit chain,
  carrying the labels in the order the goroutine will run them -/
  | endDispatch (labels : List String)
  /-- `r.rw.Write(buf)`: raw byte pass-through to the transport -/
  | rawWrite (buf : List Nat)
deriving DecidableEq

/-- A raised `error` value.  `gearErr` is the typed error produced by
`Err.WithMsg` (modelled from the spec: `Err.WithMsg` lives outside `src/`);
`transportErr` is whatever error an underlying transport call reports. -/
inductive GoError where
  | gearErr (msg : String)
  | transportErr (msg : String)
deriving DecidableEq

/-- Outcome of a method whose body performs a Go type assertion: `ok` when
the assertion succeeds (carrying the call's result), `typeAssertionFault`
for the runtime fault (panic) of a failed single-value assertion. -/
inductive Faultable (α : Type) where
  | ok (a : α)
  | typeAssertionFault

/-- Result of hijacking: an opaque connection handle and buffered
read-writer. -/
structure HijackResult where
  connId : Nat
deriving DecidableEq

/-- `http.PushOptions`. -/
structure PushOptions where
  method : String
deriving DecidableEq

/-- The origin `http.ResponseWriter` (`r.w`), viewed through its optional
capabilities: each field is `some` exactly when the writer implements the
corresponding interface, carrying the behaviour of the capability call. -/
structure OriginWriter where
  flusher : Option (Unit → Unit)
  hijacker : Option (Unit → HijackResult × Option GoError)
  closeNotifier : Option (Unit → Bool)
  pusher : Option (String → Option PushOptions → Option GoError)

/-- The `Response` object of `response.go`.  The header map owned by `rw` is
held inline; `w` is the origin writer used only for capability probing. -/
structure Response where
  status : Int
  body : Option (List Nat)
  afterHooks : List Hook
  endHooks : List Hook
  ended : Bool
  wroteHeader : Bool
  header : Header
  w : OriginWriter

/-- `if code > 0 { r.status = code }`. -/
def statusIfPos (r : Response) (code : Int) : Response :=
  if 0 < code then { r with status := code } else r

/-- `runHooks(r.afterHooks)`: run the before-commit chain in LIFO order over
the response's `(status, body)`, returning the executed labels. -/
def runAfterStage (r : Response) : Response × List String :=
  let h := runHooks r.afterHooks r.status r.body
  ({ r with status := h.1, body := h.2.1 }, h.2.2)

/-- Apply `statusNormalizer` to the response (lines 120–131). -/
def normalizeStage (r : Response) : Response :=
  let n := statusNormalizer r.status r.body
  { r with status := n.1, body := n.2 }

/-- `if r.body != nil { r.Set(HeaderContentLength, strconv.Itoa(len(r.body))) }`
(lines 133–136; the constant `HeaderContentLength` is the literal
`"Content-Length"`). -/
def contentLengthStage (r : Response) : Response :=
  match r.body with
  | some b => { r with header := r.header.set "Content-Length" (toString b.length) }
  | none => r

/-- The events of lines 137–142: the transport header commit, then — only
when the after-commit chain is non-empty — the detached goroutine dispatch
of `runHooks(r.endHooks)` (which runs the chain in LIFO order). -/
def dispatchEvents (r : Response) : List Event :=
  Event.headerCommit r.status ::
    (if r.endHooks.isEmpty then []
     else [Event.endDispatch (r.endHooks.reverse.map Hook.label)])

/-- Body of `WriteHeader` after a won test-and-set (lines 110–142): mark
`ended`, take an explicit positive status, run the before-commit chain,
normalize, set Content-Length, commit to the transport and dispatch the
after-commit chain. -/
def commitStages (r : Response) (code : Int) : Response × List Event :=
  let r2 := { r with ended := true }
  let r3 := statusIfPos r2 code
  let hs := runAfterStage r3
  let r4 := contentLengthStage (normalizeStage hs.1)
  (r4, hs.2.map Event.hookRun ++ dispatchEvents r4)

/-- `Response.WriteHeader` (lines 105–143).  The guard models
`if !r.wroteHeader.swapTrue() { return }` — modelled from the spec:
`atomicBool.swapTrue` lives outside `src/` and is an atomic test-and-set of
the flag from false to true, returning whether this caller won. -/
def Response.WriteHeader (r : Response) (code : Int) : Response × List Event :=
  if r.wroteHeader then (r, [])
  else commitStages { r with wroteHeader := true } code

/-- `Response.Write` (lines 90–99): commit implicitly (status defaulting to
200) when the header is not yet written, then pass the bytes through to the
transport's raw write `tw`, returning exactly its count and error. -/
def Response.Write (tw : List Nat → Int × Option GoError) (r : Response)
    (buf : List Nat) : Response × List Event × Int × Option GoError :=
  let p :=
    if ¬ r.wroteHeader then
      Response.WriteHeader
        (if r.status = 0 then { r with status := 200 } else r) 0
    else (r, [])
  (p.1, p.2 ++ [Event.rawWrite buf], (tw buf).1, (tw buf).2)

/-- Run a sequence of `WriteHeader` calls, concatenating their traces. -/
def writeHeaderSeq (r : Response) : List Int → Response × List Event
  | [] => (r, [])
  | c :: cs =>
    let p := Response.WriteHeader r c
    let q := writeHeaderSeq p.1 cs
    (q.1, p.2 ++ q.2)

/-- The statuses delivered to the transport header commit, in trace order. -/
def commitStatuses (tr : List Event) : List Int :=
  tr.filterMap fun e =>
    match e with
    | Event.headerCommit s => some s
    | _ => none

/-- The label batches handed to detached after-commit dispatches, in trace
order. -/
def dispatchedEndLabels (tr : List Event) : List (List String) :=
  tr.filterMap fun e =>
    match e with
    | Event.endDispatch ls => some ls
    | _ => none

/-- `Response.Vary` (lines 44–52; the constant `HeaderVary` is the literal
`"Vary"`). -/
def Response.Vary (r : Response) (field : String) : Response :=
  if field ≠ "" ∧ r.header.get "Vary" ≠ "*" then
    if field = "*" then { r with header := r.header.set "Vary" field }
    else { r with header := r.header.add "Vary" field }
  else r

/-- ASCII lower-casing of a character (the `(?i)` flag of the filter regexp). -/
def charLower (c : Char) : Char :=
  if 65 ≤ c.toNat ∧ c.toNat ≤ 90 then Char.ofNat (c.toNat + 32) else c

/-- The literal alternatives of `defaultHeaderFilterReg` (line 11–12):
`(?i)^(accept|allow|retry-after|warning|vary|access-control-allow-|x-ratelimit-)`. -/
def filterPats : List String :=
  ["accept", "allow", "retry-after", "warning", "vary",
   "access-control-allow-", "x-ratelimit-"]

/-- `defaultHeaderFilterReg.MatchString(key)`: the anchored case-insensitive
alternation matches exactly when the lower-cased key starts with one of the
literal alternatives. -/
def defaultHeaderFilter (key : String) : Bool :=
  filterPats.any fun p => p.data.isPrefixOf (key.data.map charLower)

/-- `Response.ResetHeader(filterReg ...*regexp.Regexp)` (lines 71–82): keep
exactly the keys matched by the first supplied predicate, defaulting to
`defaultHeaderFilterReg`; the variadic tail beyond the first argument is
never read. -/
def Response.ResetHeader (r : Response) (filterReg : List (String → Bool)) :
    Response :=
  let reg :=
    match filterReg with
    | [] => defaultHeaderFilter
    | p :: _ => p
  { r with header := ⟨r.header.entries.filter (fun kv => reg kv.1)⟩ }

/-- `Response.Flush` (line 148–150): unchecked assertion `r.w.(http.Flusher)`
followed by `Flush()` — faults when the capability is absent. -/
def Response.Flush (r : Response) : Faultable Unit :=
  match r.w.flusher with
  | some f => Faultable.ok (f ())
  | none => Faultable.typeAssertionFault

/-- `Response.Hijack` (lines 155–157): unchecked assertion
`r.w.(http.Hijacker)` — faults when the capability is absent. -/
def Response.Hijack (r : Response) : Faultable (HijackResult × Option GoError) :=
  match r.w.hijacker with
  | some f => Faultable.ok (f ())
  | none => Faultable.typeAssertionFault

/-- `Response.CloseNotify` (lines 164–166): unchecked assertion
`r.w.(http.CloseNotifier)` — faults when the capability is absent. -/
def Response.CloseNotify (r : Response) : Faultable Bool :=
  match r.w.closeNotifier with
  | some f => Faultable.ok (f ())
  | none => Faultable.typeAssertionFault

/-- `Response.Push` (lines 170–175): checked two-value assertion
`r.w.(http.Pusher)` — delegates when present, otherwise returns the typed
error `Err.WithMsg("http.Pusher not implemented")` instead of faulting. -/
def Response.Push (r : Response) (target : String) (opts : Option PushOptions) :
    Faultable (Option GoError) :=
  match r.w.pusher with
  | some p => Faultable.ok (p target opts)
  | none => Faultable.ok (some (GoError.gearErr "http.Pusher not implemented"))

/-- One caller of `WriteHeader` in the race model, with its explicit status
argument and a program counter over the instructions of the method body:
0 = at the test-and-set, 1 = at `ended.setTrue`, 2 = at the status
override, 3 = at hooks/normalization/Content-Length, 4 = at the transport
commit and dispatch, 5 = returned. -/
structure Caller where
  code : Int
  pc : Nat

/-- Shared state of the race: the response, the trace so far, and the two
callers. -/
structure RaceState where
  resp : Response
  trace : List Event
  ca : Caller
  cb : Caller

/-- Execute one atomic instruction of a caller against the shared response.
Instruction 0 is the atomic test-and-set of `wroteHeader`: a loser jumps
straight to the return (pc 5) and performs nothing further; the remaining
instructions are the stages of `commitStages`. -/
def callerStep (r : Response) (c : Caller) : Response × List Event × Caller :=
  match c.pc with
  | 0 =>
    if r.wroteHeader then (r, [], { c with pc := 5 })
    else ({ r with wroteHeader := true }, [], { c with pc := 1 })
  | 1 => ({ r with ended := true }, [], { c with pc := 2 })
  | 2 => (statusIfPos r c.code, [], { c with pc := 3 })
  | 3 =>
    let hs := runAfterStage r
    (contentLengthStage (normalizeStage hs.1), hs.2.map Event.hookRun,
      { c with pc := 4 })
  | 4 => (r, dispatchEvents r, { c with pc := 5 })
  | _ => (r, [], c)

/-- Schedule one step: `true` runs caller A, `false` runs caller B. -/
def raceStep (s : RaceState) (who : Bool) : RaceState :=
  if who then
    let p := callerStep s.resp s.ca
    { s with resp := p.1, trace := s.trace ++ p.2.1, ca := p.2.2 }
  else
    let p := callerStep s.resp s.cb
    { s with resp := p.1, trace := s.trace ++ p.2.1, cb := p.2.2 }

/-- Run an arbitrary interleaving. -/
def raceRun (s : RaceState) : List Bool → RaceState
  | [] => s
  | w :: ws => raceRun (raceStep s w) ws

/-- Shared response state after the winning caller (argument `code`) has
executed the instructions before pc `k`, starting from the fresh
response `r0`. -/
def wstate (r0 : Response) (code : Int) : Nat → Response
  | 1 => { r0 with wroteHeader := true }
  | 2 => { r0 with wroteHeader := true, ended := true }
  | 3 => statusIfPos { r0 with wroteHeader := true, ended := true } code
  | _ =>
    contentLengthStage (normalizeStage
      (runAfterStage
        (statusIfPos { r0 with wroteHeader := true, ended := true } code)).1)

/-- Trace accumulated once the winning caller has reached pc `k`. -/
def wtrace (r0 : Response) (code : Int) : Nat → List Event
  | 4 =>
    (runAfterStage
      (statusIfPos { r0 with wroteHeader := true, ended := true } code)).2.map
        Event.hookRun
  | 5 =>
    (runAfterStage
      (statusIfPos { r0 with wroteHeader := true, ended := true } code)).2.map
        Event.hookRun ++ dispatchEvents (wstate r0 code 4)
  | _ => []

/-- Reachability invariant of the race from a fresh response: either nobody
has executed yet, or exactly one caller has won the test-and-set and driven
the shared state through its stages while the other is untouched or has
returned empty-handed. -/
def RaceInv (r0 : Response) (s1 s2 : Int) (st : RaceState) : Prop :=
  st.ca.code = s1 ∧ st.cb.code = s2 ∧
  ((st.ca.pc = 0 ∧ st.cb.pc = 0 ∧ st.resp = r0 ∧ st.trace = []) ∨
   (∃ k, 1 ≤ k ∧ k ≤ 5 ∧ st.ca.pc = k ∧ (st.cb.pc = 0 ∨ st.cb.pc = 5) ∧
      st.resp = wstate r0 s1 k ∧ st.trace = wtrace r0 s1 k) ∨
   (∃ k, 1 ≤ k ∧ k ≤ 5 ∧ st.cb.pc = k ∧ (st.ca.pc = 0 ∨ st.ca.pc = 5) ∧
      st.resp = wstate r0 s2 k ∧ st.trace = wtrace r0 s2 k))

@[simp]
lemma statusIfPos_wroteHeader (r : Response) (c : Int) :
    (statusIfPos r c).wroteHeader = r.wroteHeader := by
  unfold statusIfPos; split <;> rfl

@[simp]
lemma statusIfPos_ended (r : Response) (c : Int) :
    (statusIfPos r c).ended = r.ended := by
  unfold statusIfPos; split <;> rfl

@[simp]
lemma statusIfPos_afterHooks (r : Response) (c : Int) :
    (statusIfPos r c).afterHooks = r.afterHooks := by
  unfold statusIfPos; split <;> rfl

@[simp]
lemma statusIfPos_endHooks (r : Response) (c : Int) :
    (statusIfPos r c).endHooks = r.endHooks := by
  unfold statusIfPos; split <;> rfl

@[simp]
lemma statusIfPos_header (r : Response) (c : Int) :
    (statusIfPos r c).header = r.header := by
  unfold statusIfPos; split <;> rfl

@[simp]
lemma statusIfPos_body (r : Response) (c : Int) :
    (statusIfPos r c).body = r.body := by
  unfold statusIfPos; split <;> rfl

lemma statusIfPos_status_of_pos (r : Response) (c : Int) (h : 0 < c) :
    (statusIfPos r c).status = c := by
  unfold statusIfPos; rw [if_pos h]

lemma runHooksFwd_labels (l : List Hook) :
    ∀ s b, (runHooksFwd l s b).2.2 = l.map Hook.label := by
  induction l with
  | nil => intro s b; rfl
  | cons h t ih =>
    intro s b
    simp only [runHooksFwd, List.map_cons]
    rw [ih]

@[simp]
lemma runAfterStage_labels (r : Response) :
    (runAfterStage r).2 = r.afterHooks.reverse.map Hook.label := by
  simp only [runAfterStage, runHooks, runHooksFwd_labels]

@[simp]
lemma runAfterStage_wroteHeader (r : Response) :
    (runAfterStage r).1.wroteHeader = r.wroteHeader := rfl

@[simp]
lemma runAfterStage_ended (r : Response) :
    (runAfterStage r).1.ended = r.ended := rfl

@[simp]
lemma runAfterStage_afterHooks (r : Response) :
    (runAfterStage r).1.afterHooks = r.afterHooks := rfl

@[simp]
lemma runAfterStage_endHooks (r : Response) :
    (runAfterStage r).1.endHooks = r.endHooks := rfl

@[simp]
lemma runAfterStage_header (r : Response) :
    (runAfterStage r).1.header = r.header := rfl

lemma runAfterStage_of_no_hooks (r : Response) (h : r.afterHooks = []) :
    (runAfterStage r).1 = r := by
  obtain ⟨st, bd, ah, eh, en, wh, hd, w⟩ := r
  simp only at h
  subst h
  rfl

@[simp]
lemma normalizeStage_wroteHeader (r : Response) :
    (normalizeStage r).wroteHeader = r.wroteHeader := rfl

@[simp]
lemma normalizeStage_ended (r : Response) :
    (normalizeStage r).ended = r.ended := rfl

@[simp]
lemma normalizeStage_afterHooks (r : Response) :
    (normalizeStage r).afterHooks = r.afterHooks := rfl

@[simp]
lemma normalizeStage_endHooks (r : Response) :
    (normalizeStage r).endHooks = r.endHooks := rfl

@[simp]
lemma normalizeStage_header (r : Response) :
    (normalizeStage r).header = r.header := rfl

@[simp]
lemma normalizeStage_status (r : Response) :
    (normalizeStage r).status = (statusNormalizer r.status r.body).1 := rfl

@[simp]
lemma normalizeStage_body (r : Response) :
    (normalizeStage r).body = (statusNormalizer r.status r.body).2 := rfl

@[simp]
lemma contentLengthStage_wroteHeader (r : Response) :
    (contentLengthStage r).wroteHeader = r.wroteHeader := by
  unfold contentLengthStage; split <;> rfl

@[simp]
lemma contentLengthStage_ended (r : Response) :
    (contentLengthStage r).ended = r.ended := by
  unfold contentLengthStage; split <;> rfl

@[simp]
lemma contentLengthStage_afterHooks (r : Response) :
    (contentLengthStage r).afterHooks = r.afterHooks := by
  unfold contentLengthStage; split <;> rfl

@[simp]
lemma contentLengthStage_endHooks (r : Response) :
    (contentLengthStage r).endHooks = r.endHooks := by
  unfold contentLengthStage; split <;> rfl

@[simp]
lemma contentLengthStage_status (r : Response) :
    (contentLengthStage r).status = r.status := by
  unfold contentLengthStage; split <;> rfl

@[simp]
lemma contentLengthStage_body (r : Response) :
    (contentLengthStage r).body = r.body := by
  unfold contentLengthStage
  split
  case _ b heq => rw [heq]
  case _ heq => rfl

lemma statusNormalizer_fst_of_valid (s : Int) (b : Option (List Nat))
    (h : IsStatusCode s = true) : (statusNormalizer s b).1 = s := by
  unfold statusNormalizer
  rw [if_neg (by simp [h])]
  split <;> rfl

@[simp]
lemma commitStatuses_nil : commitStatuses [] = [] := rfl

@[simp]
lemma commitStatuses_append (t u : List Event) :
    commitStatuses (t ++ u) = commitStatuses t ++ commitStatuses u := by
  simp [commitStatuses]

@[simp]
lemma commitStatuses_hookRuns (ls : List String) :
    commitStatuses (ls.map Event.hookRun) = [] := by
  induction ls with
  | nil => rfl
  | cons x t ih => simp [commitStatuses] at ih ⊢

@[simp]
lemma commitStatuses_dispatchEvents (r : Response) :
    commitStatuses (dispatchEvents r) = [r.status] := by
  unfold dispatchEvents
  split <;> simp [commitStatuses]

@[simp]
lemma dispatchedEndLabels_nil : dispatchedEndLabels [] = [] := rfl

@[simp]
lemma dispatchedEndLabels_append (t u : List Event) :
    dispatchedEndLabels (t ++ u)
      = dispatchedEndLabels t ++ dispatchedEndLabels u := by
  simp [dispatchedEndLabels]

@[simp]
lemma dispatchedEndLabels_hookRuns (ls : List String) :
    dispatchedEndLabels (ls.map Event.hookRun) = [] := by
  induction ls with
  | nil => rfl
  | cons x t ih => simp [dispatchedEndLabels] at ih ⊢

@[simp]
lemma dispatchedEndLabels_dispatchEvents (r : Response) :
    dispatchedEndLabels (dispatchEvents r)
      = if r.endHooks.isEmpty then []
        else [r.endHooks.reverse.map Hook.label] := by
  unfold dispatchEvents
  split <;> simp_all [dispatchedEndLabels]

@[simp]
lemma commitStatuses_hookRun_comp (l : List Hook) :
    commitStatuses (List.map (Event.hookRun ∘ Hook.label) l) = [] := by
  induction l with
  | nil => rfl
  | cons x t ih => simp [commitStatuses, Function.comp] at ih ⊢

@[simp]
lemma commitStatuses_reverse (t : List Event) :
    commitStatuses t.reverse = (commitStatuses t).reverse := by
  simp [commitStatuses, List.filterMap_reverse]

@[simp]
lemma dispatchedEndLabels_hookRun_comp (l : List Hook) :
    dispatchedEndLabels (List.map (Event.hookRun ∘ Hook.label) l) = [] := by
  induction l with
  | nil => rfl
  | cons x t ih => simp [dispatchedEndLabels, Function.comp] at ih ⊢

@[simp]
lemma dispatchedEndLabels_reverse (t : List Event) :
    dispatchedEndLabels t.reverse = (dispatchedEndLabels t).reverse := by
  simp [dispatchedEndLabels, List.filterMap_reverse]

lemma WriteHeader_of_committed (r : Response) (c : Int)
    (h : r.wroteHeader = true) : Response.WriteHeader r c = (r, []) := by
  simp [Response.WriteHeader, h]

lemma commitStages_fst_wroteHeader (r : Response) (c : Int) :
    (commitStages r c).1.wroteHeader = r.wroteHeader := by
  simp [commitStages]

lemma WriteHeader_fst_wroteHeader (r : Response) (c : Int)
    (h : r.wroteHeader = false) :
    (Response.WriteHeader r c).1.wroteHeader = true := by
  simp [Response.WriteHeader, h, commitStages_fst_wroteHeader]

lemma writeHeaderSeq_of_committed (r : Response) (h : r.wroteHeader = true) :
    ∀ cs, writeHeaderSeq r cs = (r, []) := by
  intro cs
  induction cs with
  | nil => rfl
  | cons c t ih => simp [writeHeaderSeq, WriteHeader_of_committed r c h, ih]

lemma raceStep_a0_win (s : RaceState) (h : s.ca.pc = 0)
    (hw : s.resp.wroteHeader = false) :
    raceStep s true
      = { s with resp := { s.resp with wroteHeader := true },
                 ca := { s.ca with pc := 1 } } := by
  obtain ⟨resp, tr, ⟨cc, cp⟩, cb⟩ := s
  simp only at h hw
  subst h
  simp [raceStep, callerStep, hw]

lemma raceStep_a0_lose (s : RaceState) (h : s.ca.pc = 0)
    (hw : s.resp.wroteHeader = true) :
    raceStep s true = { s with ca := { s.ca with pc := 5 } } := by
  obtain ⟨resp, tr, ⟨cc, cp⟩, cb⟩ := s
  simp only at h hw
  subst h
  simp [raceStep, callerStep, hw]

lemma raceStep_a1 (s : RaceState) (h : s.ca.pc = 1) :
    raceStep s true
      = { s with resp := { s.resp with ended := true },
                 ca := { s.ca with pc := 2 } } := by
  obtain ⟨resp, tr, ⟨cc, cp⟩, cb⟩ := s
  simp only at h
  subst h
  simp [raceStep, callerStep]

lemma raceStep_a2 (s : RaceState) (h : s.ca.pc = 2) :
    raceStep s true
      = { s with resp := statusIfPos s.resp s.ca.code,
                 ca := { s.ca with pc := 3 } } := by
  obtain ⟨resp, tr, ⟨cc, cp⟩, cb⟩ := s
  simp only at h
  subst h
  simp [raceStep, callerStep]

lemma raceStep_a3 (s : RaceState) (h : s.ca.pc = 3) :
    raceStep s true
      = { s with resp := contentLengthStage (normalizeStage (runAfterStage s.resp).1),
                 trace := s.trace ++ (runAfterStage s.resp).2.map Event.hookRun,
                 ca := { s.ca with pc := 4 } } := by
  obtain ⟨resp, tr, ⟨cc, cp⟩, cb⟩ := s
  simp only at h
  subst h
  simp [raceStep, callerStep]

lemma raceStep_a4 (s : RaceState) (h : s.ca.pc = 4) :
    raceStep s true
      = { s with trace := s.trace ++ dispatchEvents s.resp,
                 ca := { s.ca with pc := 5 } } := by
  obtain ⟨resp, tr, ⟨cc, cp⟩, cb⟩ := s
  simp only at h
  subst h
  simp [raceStep, callerStep]

lemma raceStep_done_a (s : RaceState) (h : s.ca.pc = 5) :
    raceStep s true = s := by
  obtain ⟨resp, tr, ⟨cc, cp⟩, cb⟩ := s
  simp only at h
  subst h
  simp [raceStep, callerStep]

lemma raceStep_b0_win (s : RaceState) (h : s.cb.pc = 0)
    (hw : s.resp.wroteHeader = false) :
    raceStep s false
      = { s with resp := { s.resp with wroteHeader := true },
                 cb := { s.cb with pc := 1 } } := by
  obtain ⟨resp, tr, ca, ⟨cc, cp⟩⟩ := s
  simp only at h hw
  subst h
  simp [raceStep, callerStep, hw]

lemma raceStep_b0_lose (s : RaceState) (h : s.cb.pc = 0)
    (hw : s.resp.wroteHeader = true) :
    raceStep s false = { s with cb := { s.cb with pc := 5 } } := by
  obtain ⟨resp, tr, ca, ⟨cc, cp⟩⟩ := s
  simp only at h hw
  subst h
  simp [raceStep, callerStep, hw]

lemma raceStep_b1 (s : RaceState) (h : s.cb.pc = 1) :
    raceStep s false
      = { s with resp := { s.resp with ended := true },
                 cb := { s.cb with pc := 2 } } := by
  obtain ⟨resp, tr, ca, ⟨cc, cp⟩⟩ := s
  simp only at h
  subst h
  simp [raceStep, callerStep]

lemma raceStep_b2 (s : RaceState) (h : s.cb.pc = 2) :
    raceStep s false
      = { s with resp := statusIfPos s.resp s.cb.code,
                 cb := { s.cb with pc := 3 } } := by
  obtain ⟨resp, tr, ca, ⟨cc, cp⟩⟩ := s
  simp only at h
  subst h
  simp [raceStep, callerStep]

lemma raceStep_b3 (s : RaceState) (h : s.cb.pc = 3) :
    raceStep s false
      = { s with resp := contentLengthStage (normalizeStage (runAfterStage s.resp).1),
                 trace := s.trace ++ (runAfterStage s.resp).2.map Event.hookRun,
                 cb := { s.cb with pc := 4 } } := by
  obtain ⟨resp, tr, ca, ⟨cc, cp⟩⟩ := s
  simp only at h
  subst h
  simp [raceStep, callerStep]

lemma raceStep_b4 (s : RaceState) (h : s.cb.pc = 4) :
    raceStep s false
      = { s with trace := s.trace ++ dispatchEvents s.resp,
                 cb := { s.cb with pc := 5 } } := by
  obtain ⟨resp, tr, ca, ⟨cc, cp⟩⟩ := s
  simp only at h
  subst h
  simp [raceStep, callerStep]

lemma raceStep_done_b (s : RaceState) (h : s.cb.pc = 5) :
    raceStep s false = s := by
  obtain ⟨resp, tr, ca, ⟨cc, cp⟩⟩ := s
  simp only at h
  subst h
  simp [raceStep, callerStep]

lemma wstate_wroteHeader (r0 : Response) (code : Int) :
    ∀ k, 1 ≤ k → (wstate r0 code k).wroteHeader = true
  | 0, h => absurd h (by omega)
  | 1, _ => rfl
  | 2, _ => rfl
  | 3, _ => by
    show (statusIfPos { r0 with wroteHeader := true, ended := true } code).wroteHeader = true
    simp
  | (n + 4), _ => by
    show (contentLengthStage (normalizeStage
      (runAfterStage
        (statusIfPos { r0 with wroteHeader := true, ended := true } code)).1)).wroteHeader = true
    simp

lemma raceInv_init (r0 : Response) (s1 s2 : Int) :
    RaceInv r0 s1 s2 ⟨r0, [], ⟨s1, 0⟩, ⟨s2, 0⟩⟩ :=
  ⟨rfl, rfl, Or.inl ⟨rfl, rfl, rfl, rfl⟩⟩

lemma raceInv_step (r0 : Response) (s1 s2 : Int) (h0 : r0.wroteHeader = false)
    (st : RaceState) (w : Bool) (hinv : RaceInv r0 s1 s2 st) :
    RaceInv r0 s1 s2 (raceStep st w) := by
  unfold RaceInv at hinv ⊢
  obtain ⟨hca, hcb, hdisj⟩ := hinv
  rcases hdisj with ⟨hpa, hpb, hresp, htr⟩ |
    ⟨k, hk1, hk5, hpa, hpb, hresp, htr⟩ |
    ⟨k, hk1, hk5, hpb, hpa, hresp, htr⟩
  · cases w with
    | true =>
      rw [raceStep_a0_win st hpa (by rw [hresp]; exact h0)]
      exact ⟨hca, hcb, Or.inr (Or.inl
        ⟨1, by omega, by omega, rfl, Or.inl hpb, by rw [hresp]; rfl, by rw [htr]; rfl⟩)⟩
    | false =>
      rw [raceStep_b0_win st hpb (by rw [hresp]; exact h0)]
      exact ⟨hca, hcb, Or.inr (Or.inr
        ⟨1, by omega, by omega, rfl, Or.inl hpa, by rw [hresp]; rfl, by rw [htr]; rfl⟩)⟩
  · cases w with
    | true =>
      interval_cases k
      · rw [raceStep_a1 st hpa]
        exact ⟨hca, hcb, Or.inr (Or.inl
          ⟨2, by omega, by omega, rfl, hpb, by rw [hresp]; rfl, by rw [htr]; rfl⟩)⟩
      · rw [raceStep_a2 st hpa]
        exact ⟨hca, hcb, Or.inr (Or.inl
          ⟨3, by omega, by omega, rfl, hpb, by rw [hresp, hca]; rfl, by rw [htr]; rfl⟩)⟩
      · rw [raceStep_a3 st hpa]
        exact ⟨hca, hcb, Or.inr (Or.inl
          ⟨4, by omega, by omega, rfl, hpb, by rw [hresp]; rfl, by rw [htr, hresp]; rfl⟩)⟩
      · rw [raceStep_a4 st hpa]
        exact ⟨hca, hcb, Or.inr (Or.inl
          ⟨5, by omega, by omega, rfl, hpb, hresp, by rw [htr, hresp]; rfl⟩)⟩
      · rw [raceStep_done_a st hpa]
        exact ⟨hca, hcb, Or.inr (Or.inl ⟨5, by omega, by omega, hpa, hpb, hresp, htr⟩)⟩
    | false =>
      rcases hpb with hpb | hpb
      · have hw : st.resp.wroteHeader = true := by
          rw [hresp]; exact wstate_wroteHeader r0 s1 k hk1
        rw [raceStep_b0_lose st hpb hw]
        exact ⟨hca, hcb, Or.inr (Or.inl
          ⟨k, hk1, hk5, hpa, Or.inr rfl, hresp, htr⟩)⟩
      · rw [raceStep_done_b st hpb]
        exact ⟨hca, hcb, Or.inr (Or.inl ⟨k, hk1, hk5, hpa, Or.inr hpb, hresp, htr⟩)⟩
  · cases w with
    | false =>
      interval_cases k
      · rw [raceStep_b1 st hpb]
        exact ⟨hca, hcb, Or.inr (Or.inr
          ⟨2, by omega, by omega, rfl, hpa, by rw [hresp]; rfl, by rw [htr]; rfl⟩)⟩
      · rw [raceStep_b2 st hpb]
        exact ⟨hca, hcb, Or.inr (Or.inr
          ⟨3, by omega, by omega, rfl, hpa, by rw [hresp, hcb]; rfl, by rw [htr]; rfl⟩)⟩
      · rw [raceStep_b3 st hpb]
        exact ⟨hca, hcb, Or.inr (Or.inr
          ⟨4, by omega, by omega, rfl, hpa, by rw [hresp]; rfl, by rw [htr, hresp]; rfl⟩)⟩
      · rw [raceStep_b4 st hpb]
        exact ⟨hca, hcb, Or.inr (Or.inr
          ⟨5, by omega, by omega, rfl, hpa, hresp, by rw [htr, hresp]; rfl⟩)⟩
      · rw [raceStep_done_b st hpb]
        exact ⟨hca, hcb, Or.inr (Or.inr ⟨5, by omega, by omega, hpb, hpa, hresp, htr⟩)⟩
    | true =>
      rcases hpa with hpa | hpa
      · have hw : st.resp.wroteHeader = true := by
          rw [hresp]; exact wstate_wroteHeader r0 s2 k hk1
        rw [raceStep_a0_lose st hpa hw]
        exact ⟨hca, hcb, Or.inr (Or.inr
          ⟨k, hk1, hk5, hpb, Or.inr rfl, hresp, htr⟩)⟩
      · rw [raceStep_done_a st hpa]
        exact ⟨hca, hcb, Or.inr (Or.inr ⟨k, hk1, hk5, hpb, Or.inr hpa, hresp, htr⟩)⟩

lemma raceInv_run (r0 : Response) (s1 s2 : Int) (h0 : r0.wroteHeader = false) :
    ∀ (sched : List Bool) (st : RaceState), RaceInv r0 s1 s2 st →
      RaceInv r0 s1 s2 (raceRun st sched) := by
  intro sched
  induction sched with
  | nil => intro st h; exact h
  | cons w ws ih =>
    intro st h
    exact ih (raceStep st w) (raceInv_step r0 s1 s2 h0 st w h)

lemma wstate4_status (r0 : Response) (code : Int) (hA : r0.afterHooks = [])
    (hv : IsStatusCode code = true) (hp : 0 < code) :
    (wstate r0 code 4).status = code := by
  have h2 : (statusIfPos { r0 with wroteHeader := true, ended := true } code).afterHooks
      = [] := by simp [hA]
  have h3 := runAfterStage_of_no_hooks _ h2
  show (contentLengthStage (normalizeStage
    (runAfterStage
      (statusIfPos { r0 with wroteHeader := true, ended := true } code)).1)).status = code
  rw [contentLengthStage_status, normalizeStage_status, h3,
    statusIfPos_status_of_pos _ _ hp, statusNormalizer_fst_of_valid _ _ hv]

lemma commitStatuses_wtrace5 (r0 : Response) (code : Int) (hA : r0.afterHooks = [])
    (hv : IsStatusCode code = true) (hp : 0 < code) :
    commitStatuses (wtrace r0 code 5) = [code] := by
  show commitStatuses
    ((runAfterStage
      (statusIfPos { r0 with wroteHeader := true, ended := true } code)).2.map
        Event.hookRun ++ dispatchEvents (wstate r0 code 4)) = [code]
  rw [commitStatuses_append, commitStatuses_hookRuns, commitStatuses_dispatchEvents,
    wstate4_status r0 code hA hv hp]
  rfl

lemma getValues_setEntry_self (l : HeaderEntries) (k v : String) :
    getValues (setEntry l k v) k = [v] := by
  induction l with
  | nil => simp [setEntry, getValues]
  | cons kv t ih =>
    by_cases hk : kv.1 = k
    · simp [setEntry, hk, getValues]
    · simp [setEntry, hk, getValues, ih]

lemma getValues_addEntry_self (l : HeaderEntries) (k v : String) :
    getValues (addEntry l k v) k = getValues l k ++ [v] := by
  induction l with
  | nil => simp [addEntry, getValues]
  | cons kv t ih =>
    by_cases hk : kv.1 = k
    · simp [addEntry, hk, getValues]
    · simp [addEntry, hk, getValues, ih]

lemma Header.get_set_self (h : Header) (k v : String) :
    (h.set k v).get k = v := by
  simp [Header.get, Header.set, getValues_setEntry_self]

lemma Header.values_add_self (h : Header) (k v : String) :
    (h.add k v).values k = h.values k ++ [v] := by
  simp [Header.values, Header.add, getValues_addEntry_self]

lemma Header.get_add_ne (h : Header) (k v s : String)
    (h1 : h.get k ≠ s) (h2 : v ≠ s) : (h.add k v).get k ≠ s := by
  unfold Header.get at h1 ⊢
  unfold Header.add
  show (match getValues (addEntry h.entries k v) k with
    | [] => "" | x :: _ => x) ≠ s
  rw [getValues_addEntry_self]
  cases hv : getValues h.entries k with
  | nil => simpa using h2
  | cons x t =>
    rw [hv] at h1
    simpa using h1

lemma contentLengthStage_of_none (r : Response) (hb : r.body = none) :
    contentLengthStage r = r := by
  unfold contentLengthStage; rw [hb]

lemma contentLengthStage_header_of_some (r : Response) (b : List Nat)
    (hb : r.body = some b) :
    (contentLengthStage r).header
      = r.header.set "Content-Length" (toString b.length) := by
  unfold contentLengthStage; rw [hb]

/-- A hook that leaves status and body untouched, used in concrete examples. -/
def inertHook (l : String) : Hook := ⟨l, fun s b => (s, b)⟩

/-- A transport writer with none of the optional capabilities. -/
def bareWriter : OriginWriter := ⟨none, none, none, none⟩

/-- A fresh response with three hooks (registered A then B then C) on each
chain and an empty header map. -/
def sampleResp : Response :=
  ⟨0, none, [inertHook "A", inertHook "B", inertHook "C"],
   [inertHook "A", inertHook "B", inertHook "C"], false, false, ⟨[]⟩, bareWriter⟩

/-- A fresh response with no hooks at all. -/
def sampleFresh : Response :=
  ⟨0, none, [], [], false, false, ⟨[]⟩, bareWriter⟩

/-- A raw transport write that reports the full byte count and no error. -/
def sampleTw : List Nat → Int × Option GoError :=
  fun buf => ((buf.length : Int), none)

/-- Claim C3: the status/body normalization applied during commit — after the
before-commit hooks run — coerces an unrecognized status to 200 with a
non-nil body and to 421 with a nil body, clears the body on recognized
body-less statuses, and leaves everything else unchanged; in particular
`(0, nil) ↦ (421, nil)`, `(0, body) ↦ (200, body)`, `(999, body) ↦
(200, body)`, `(204, body) ↦ (204, nil)` and `(200, body)` is unchanged,
and `WriteHeader` applies exactly this function to the post-hook status and
body. -/
theorem statusNormalizer_spec :
    (∀ s b, IsStatusCode s = false → statusNormalizer s (some b) = (200, some b))
    ∧ (∀ s, IsStatusCode s = false → statusNormalizer s none = (421, none))
    ∧ (∀ s b, IsStatusCode s = true → isEmptyStatus s = true →
        statusNormalizer s b = (s, none))
    ∧ (∀ s b, IsStatusCode s = true → isEmptyStatus s = false →
        statusNormalizer s b = (s, b))
    ∧ statusNormalizer 0 none = (421, none)
    ∧ (∀ b, statusNormalizer 0 (some b) = (200, some b))
    ∧ (∀ b, statusNormalizer 999 (some b) = (200, some b))
    ∧ (∀ b, statusNormalizer 204 (some b) = (204, none))
    ∧ (∀ b, statusNormalizer 200 (some b) = (200, some b))
    ∧ (∀ (r : Response) (code : Int), r.wroteHeader = false →
        ((Response.WriteHeader r code).1.status, (Response.WriteHeader r code).1.body)
          = statusNormalizer
              (runAfterStage
                (statusIfPos { r with wroteHeader := true, ended := true } code)).1.status
              (runAfterStage
                (statusIfPos { r with wroteHeader := true, ended := true } code)).1.body) := by
  have h0 : IsStatusCode 0 = false := by decide
  have h999 : IsStatusCode 999 = false := by decide
  have h204 : IsStatusCode 204 = true := by decide
  have h204e : isEmptyStatus 204 = true := by decide
  have h200 : IsStatusCode 200 = true := by decide
  have h200e : isEmptyStatus 200 = false := by decide
  refine ⟨?_, ?_, ?_, ?_, ?_, ?_, ?_, ?_, ?_, ?_⟩
  · intro s b hs; simp [statusNormalizer, hs]
  · intro s hs; simp [statusNormalizer, hs]
  · intro s b hs he; simp [statusNormalizer, hs, he]
  · intro s b hs he; simp [statusNormalizer, hs, he]
  · simp [statusNormalizer, h0]
  · intro b; simp [statusNormalizer, h0]
  · intro b; simp [statusNormalizer, h999]
  · intro b; simp [statusNormalizer, h204, h204e]
  · intro b; simp [statusNormalizer, h200, h200e]
  · intro r code h
    simp [Response.WriteHeader, h, commitStages]

/-- Claim C3 witness: the normalization table evaluated at the concrete
inputs named by the claim. -/
theorem statusNormalizer_spec_witness :
    IsStatusCode 999 = false
    ∧ statusNormalizer 999 (some [1, 2]) = (200, some [1, 2])
    ∧ statusNormalizer 0 none = (421, none)
    ∧ statusNormalizer 204 (some [1, 2]) = (204, none)
    ∧ sampleFresh.wroteHeader = false
    ∧ ((Response.WriteHeader sampleFresh 204).1.status,
        (Response.WriteHeader sampleFresh 204).1.body)
        = statusNormalizer
            (runAfterStage
              (statusIfPos { sampleFresh with wroteHeader := true, ended := true } 204)).1.status
            (runAfterStage
              (statusIfPos { sampleFresh with wroteHeader := true, ended := true } 204)).1.body :=
  ⟨by decide, statusNormalizer_spec.2.2.2.2.2.2.1 [1, 2],
   statusNormalizer_spec.2.2.2.2.1, statusNormalizer_spec.2.2.2.2.2.2.2.1 [1, 2],
   rfl, statusNormalizer_spec.2.2.2.2.2.2.2.2.2 sampleFresh 204 rfl⟩

/-- Claim C4: both hook chains execute in strict LIFO order — the trace of a
fresh commit is the before-commit (`afterHooks`) chain reversed, then the
single transport header commit, then (for a non-empty chain) the detached
dispatch carrying the after-commit (`endHooks`) chain reversed; and
`runHooks` always yields the registration list reversed. -/
theorem hooks_lifo_order (r : Response) (code : Int) (h : r.wroteHeader = false) :
    (Response.WriteHeader r code).2
      = r.afterHooks.reverse.map (fun hk => Event.hookRun hk.label)
        ++ Event.headerCommit (Response.WriteHeader r code).1.status
        :: (if r.endHooks.isEmpty then []
            else [Event.endDispatch (r.endHooks.reverse.map Hook.label)])
    ∧ (∀ (hooks : List Hook) (s : Int) (b : Option (List Nat)),
        (runHooks hooks s b).2.2 = hooks.reverse.map Hook.label) := by
  constructor
  · simp [Response.WriteHeader, h, commitStages, dispatchEvents, List.map_map]
    rw [contentLengthStage_endHooks, normalizeStage_endHooks, runAfterStage_endHooks,
      statusIfPos_endHooks]
    rfl
  · intro hooks s b
    exact runHooksFwd_labels hooks.reverse s b

/-- Claim C4 witness: with hooks A, B, C registered in that order on both
chains, the commit trace runs C, B, A before the header commit and
dispatches C, B, A after it. -/
theorem hooks_lifo_order_witness :
    sampleResp.wroteHeader = false
    ∧ (Response.WriteHeader sampleResp 200).2
        = sampleResp.afterHooks.reverse.map (fun hk => Event.hookRun hk.label)
          ++ Event.headerCommit (Response.WriteHeader sampleResp 200).1.status
          :: (if sampleResp.endHooks.isEmpty then []
              else [Event.endDispatch (sampleResp.endHooks.reverse.map Hook.label)])
    ∧ (runHooks [inertHook "A", inertHook "B", inertHook "C"] 0 none).2.2
        = ["C", "B", "A"] :=
  ⟨rfl, (hooks_lifo_order sampleResp 200 rfl).1,
   (hooks_lifo_order sampleResp 200 rfl).2
     [inertHook "A", inertHook "B", inertHook "C"] 0 none⟩

/-- Claim C5: when the header is not yet written, `Write` first defaults a
zero status to 200, then commits via `WriteHeader(0)` (no explicit status
override), then passes the bytes unmodified to the transport's raw write and
returns exactly the transport's count and error; when already committed it
only performs the pass-through. -/
theorem write_implicit_commit (tw : List Nat → Int × Option GoError)
    (r : Response) (buf : List Nat) :
    (r.wroteHeader = false →
      Response.Write tw r buf
        = ((Response.WriteHeader
              (if r.status = 0 then { r with status := 200 } else r) 0).1,
           (Response.WriteHeader
              (if r.status = 0 then { r with status := 200 } else r) 0).2
             ++ [Event.rawWrite buf],
           (tw buf).1, (tw buf).2))
    ∧ (r.wroteHeader = true →
      Response.Write tw r buf = (r, [Event.rawWrite buf], (tw buf).1, (tw buf).2)) := by
  constructor
  · intro h; simp [Response.Write, h]
  · intro h; simp [Response.Write, h]

/-- Claim C5 witness: a fresh response's `Write` commits implicitly and
passes the bytes and the transport's result through unchanged. -/
theorem write_implicit_commit_witness :
    sampleFresh.wroteHeader = false
    ∧ Response.Write sampleTw sampleFresh [7, 8]
        = ((Response.WriteHeader
              (if sampleFresh.status = 0 then { sampleFresh with status := 200 }
               else sampleFresh) 0).1,
           (Response.WriteHeader
              (if sampleFresh.status = 0 then { sampleFresh with status := 200 }
               else sampleFresh) 0).2
             ++ [Event.rawWrite [7, 8]],
           (sampleTw [7, 8]).1, (sampleTw [7, 8]).2) :=
  ⟨rfl, (write_implicit_commit sampleTw sampleFresh [7, 8]).1 rfl⟩

/-- Claim C6: after a fresh commit, if the normalized body is non-nil the
committed Content-Length header is exactly the decimal byte length of that
body, and if the normalized body is nil the header map is left untouched (no
Content-Length is set). -/
theorem contentLength_exact (r : Response) (code : Int) (h : r.wroteHeader = false) :
    (∀ b, (Response.WriteHeader r code).1.body = some b →
        ((Response.WriteHeader r code).1.header).get "Content-Length"
          = toString b.length)
    ∧ ((Response.WriteHeader r code).1.body = none →
        (Response.WriteHeader r code).1.header = r.header) := by
  have e1 : (Response.WriteHeader r code).1
      = contentLengthStage (normalizeStage
          (runAfterStage
            (statusIfPos { r with wroteHeader := true, ended := true } code)).1) := by
    simp [Response.WriteHeader, h, commitStages]
  constructor
  · intro b hb
    rw [e1] at hb ⊢
    rw [contentLengthStage_body] at hb
    rw [contentLengthStage_header_of_some _ b hb, Header.get_set_self]
  · intro hb
    rw [e1] at hb ⊢
    rw [contentLengthStage_body] at hb
    rw [contentLengthStage_of_none _ hb]
    simp

/-- A fresh response carrying a non-nil body and no hooks. -/
def sampleBodyResp : Response :=
  ⟨0, some [9, 9, 9], [], [], false, false, ⟨[]⟩, bareWriter⟩

/-- Claim C6 witness: committing a 3-byte body sets Content-Length to "3". -/
theorem contentLength_exact_witness :
    sampleBodyResp.wroteHeader = false
    ∧ (Response.WriteHeader sampleBodyResp 200).1.body = some [9, 9, 9]
    ∧ ((Response.WriteHeader sampleBodyResp 200).1.header).get "Content-Length"
        = toString ([9, 9, 9] : List Nat).length :=
  ⟨rfl, rfl, (contentLength_exact sampleBodyResp 200 rfl).1 [9, 9, 9] rfl⟩

/-- Claim C1: commit is idempotent — once a call to `WriteHeader` has taken
effect, any subsequent call with any status returns the state unchanged and
emits no events (no status/body change, no hook execution, no
Content-Length, no second transport commit); over the whole sequence exactly
one transport header commit occurs, and the after-commit chain is handed to
exactly one detached dispatch (none when the chain is empty). -/
theorem writeHeader_idempotent (r : Response) (c c2 : Int) (cs : List Int)
    (h : r.wroteHeader = false) :
    Response.WriteHeader (Response.WriteHeader r c).1 c2
      = ((Response.WriteHeader r c).1, [])
    ∧ writeHeaderSeq r (c :: cs) = Response.WriteHeader r c
    ∧ commitStatuses (Response.WriteHeader r c).2
        = [(Response.WriteHeader r c).1.status]
    ∧ dispatchedEndLabels (Response.WriteHeader r c).2
        = if r.endHooks.isEmpty then []
          else [r.endHooks.reverse.map Hook.label] := by
  have hw : (Response.WriteHeader r c).1.wroteHeader = true :=
    WriteHeader_fst_wroteHeader r c h
  refine ⟨WriteHeader_of_committed _ c2 hw, ?_, ?_, ?_⟩
  · show writeHeaderSeq r (c :: cs) = Response.WriteHeader r c
    simp [writeHeaderSeq, writeHeaderSeq_of_committed _ hw cs]
  · simp [Response.WriteHeader, h, commitStages]
  · simp [Response.WriteHeader, h, commitStages]
    rw [contentLengthStage_endHooks, normalizeStage_endHooks,
      runAfterStage_endHooks, statusIfPos_endHooks]

/-- Claim C1 witness: a concrete double commit — the second call is a no-op
and the single trace holds one header commit and one dispatch of C, B, A. -/
theorem writeHeader_idempotent_witness :
    sampleResp.wroteHeader = false
    ∧ Response.WriteHeader (Response.WriteHeader sampleResp 404).1 301
        = ((Response.WriteHeader sampleResp 404).1, [])
    ∧ writeHeaderSeq sampleResp (404 :: [500]) = Response.WriteHeader sampleResp 404
    ∧ commitStatuses (Response.WriteHeader sampleResp 404).2
        = [(Response.WriteHeader sampleResp 404).1.status]
    ∧ dispatchedEndLabels (Response.WriteHeader sampleResp 404).2
        = if sampleResp.endHooks.isEmpty then []
          else [sampleResp.endHooks.reverse.map Hook.label] := by
  have h := writeHeader_idempotent sampleResp 404 301 [500] rfl
  exact ⟨rfl, h.1, h.2.1, h.2.2.1, h.2.2.2⟩

/-- The interleaving schedule used in the race witness: caller B wins the
test-and-set, caller A loses, then B finishes its commit. -/
def raceSched : List Bool := [false, true, false, false, false, false]

/-- Claim C2: under any interleaving of two concurrent `WriteHeader` callers
with positive recognized statuses on a fresh hook-free response, once both
callers have returned, the transport header commit happened exactly once and
delivered exactly one of the two statuses — never a mix — because the
`committed` flag is flipped by an atomic test-and-set. -/
theorem commit_race_single_winner (r0 : Response) (s1 s2 : Int)
    (sched : List Bool) (h0 : r0.wroteHeader = false) (hA : r0.afterHooks = [])
    (hv1 : IsStatusCode s1 = true) (hv2 : IsStatusCode s2 = true)
    (hp1 : 0 < s1) (hp2 : 0 < s2)
    (hda : (raceRun ⟨r0, [], ⟨s1, 0⟩, ⟨s2, 0⟩⟩ sched).ca.pc = 5)
    (hdb : (raceRun ⟨r0, [], ⟨s1, 0⟩, ⟨s2, 0⟩⟩ sched).cb.pc = 5) :
    commitStatuses (raceRun ⟨r0, [], ⟨s1, 0⟩, ⟨s2, 0⟩⟩ sched).trace = [s1]
    ∨ commitStatuses (raceRun ⟨r0, [], ⟨s1, 0⟩, ⟨s2, 0⟩⟩ sched).trace = [s2] := by
  have hinv := raceInv_run r0 s1 s2 h0 sched _ (raceInv_init r0 s1 s2)
  obtain ⟨hca, hcb, hdisj⟩ := hinv
  rcases hdisj with ⟨hpa, hpb, hresp, htr⟩ |
    ⟨k, hk1, hk5, hpa, hpb, hresp, htr⟩ |
    ⟨k, hk1, hk5, hpb, hpa, hresp, htr⟩
  · omega
  · left
    have hk : k = 5 := by omega
    subst hk
    rw [htr]
    exact commitStatuses_wtrace5 r0 s1 hA hv1 hp1
  · right
    have hk : k = 5 := by omega
    subst hk
    rw [htr]
    exact commitStatuses_wtrace5 r0 s2 hA hv2 hp2

/-- Claim C2 witness: a concrete race in which caller B (status 404) wins
the test-and-set against caller A (status 200); both finish and the
transport sees exactly one commit with one of the two statuses. -/
theorem commit_race_single_winner_witness :
    (raceRun ⟨sampleFresh, [], ⟨200, 0⟩, ⟨404, 0⟩⟩ raceSched).ca.pc = 5
    ∧ (raceRun ⟨sampleFresh, [], ⟨200, 0⟩, ⟨404, 0⟩⟩ raceSched).cb.pc = 5
    ∧ (commitStatuses (raceRun ⟨sampleFresh, [], ⟨200, 0⟩, ⟨404, 0⟩⟩ raceSched).trace
          = [200]
       ∨ commitStatuses (raceRun ⟨sampleFresh, [], ⟨200, 0⟩, ⟨404, 0⟩⟩ raceSched).trace
          = [404]) :=
  ⟨rfl, rfl,
   commit_race_single_winner sampleFresh 200 404 raceSched rfl rfl
     (by decide) (by decide) (by decide) (by decide) rfl rfl⟩

/-- Claim C7: `Push` is the only defensively guarded capability — on a
transport without push support it returns the typed "http.Pusher not
implemented" error and never faults, and with support it returns exactly the
transport's result; `Flush`, `Hijack` and `CloseNotify` fault (failed type
assertion) whenever their capability is absent. -/
theorem push_defensive_capability :
    (∀ (r : Response) (t : String) (o : Option PushOptions), r.w.pusher = none →
        Response.Push r t o
          = Faultable.ok (some (GoError.gearErr "http.Pusher not implemented")))
    ∧ (∀ (r : Response) (t : String) (o : Option PushOptions) p,
        r.w.pusher = some p → Response.Push r t o = Faultable.ok (p t o))
    ∧ (∀ (r : Response) (t : String) (o : Option PushOptions),
        Response.Push r t o ≠ Faultable.typeAssertionFault)
    ∧ (∀ r : Response, r.w.flusher = none →
        Response.Flush r = Faultable.typeAssertionFault)
    ∧ (∀ r : Response, r.w.hijacker = none →
        Response.Hijack r = Faultable.typeAssertionFault)
    ∧ (∀ r : Response, r.w.closeNotifier = none →
        Response.CloseNotify r = Faultable.typeAssertionFault)
    ∧ (∀ (r : Response) f, r.w.flusher = some f →
        Response.Flush r = Faultable.ok (f ())) := by
  refine ⟨?_, ?_, ?_, ?_, ?_, ?_, ?_⟩
  · intro r t o hp; simp [Response.Push, hp]
  · intro r t o p hp; simp [Response.Push, hp]
  · intro r t o
    unfold Response.Push
    cases r.w.pusher <;> simp
  · intro r hp; simp [Response.Flush, hp]
  · intro r hp; simp [Response.Hijack, hp]
  · intro r hp; simp [Response.CloseNotify, hp]
  · intro r f hp; simp [Response.Flush, hp]

/-- Claim C7 witness: on a transport with no capabilities, `Push` returns
the typed error while `Flush` faults. -/
theorem push_defensive_capability_witness :
    sampleFresh.w.pusher = none
    ∧ Response.Push sampleFresh "/res" none
        = Faultable.ok (some (GoError.gearErr "http.Pusher not implemented"))
    ∧ sampleFresh.w.flusher = none
    ∧ Response.Flush sampleFresh = Faultable.typeAssertionFault :=
  ⟨rfl, push_defensive_capability.1 sampleFresh "/res" none rfl,
   rfl, push_defensive_capability.2.2.2.1 sampleFresh rfl⟩

/-- Claim C8: `Vary` is a no-op on an empty field or when the stored Vary
value is already the wildcard; a wildcard field replaces the whole value;
any other field is appended preserving the existing values; consequently
`Vary "*"` then `Vary f` leaves the wildcard, and two ordinary fields both
end up present. -/
theorem vary_merge :
    (∀ r : Response, Response.Vary r "" = r)
    ∧ (∀ (r : Response) f, r.header.get "Vary" = "*" → Response.Vary r f = r)
    ∧ (∀ r : Response, r.header.get "Vary" ≠ "*" →
        (Response.Vary r "*").header = r.header.set "Vary" "*")
    ∧ (∀ (r : Response) f, f ≠ "" → f ≠ "*" → r.header.get "Vary" ≠ "*" →
        (Response.Vary r f).header = r.header.add "Vary" f)
    ∧ (∀ (r : Response) f,
        (Response.Vary (Response.Vary r "*") f).header.get "Vary" = "*")
    ∧ (∀ (r : Response) f g, f ≠ "" → f ≠ "*" → g ≠ "" → g ≠ "*" →
        r.header.get "Vary" ≠ "*" →
        (Response.Vary (Response.Vary r f) g).header.values "Vary"
          = r.header.values "Vary" ++ [f, g]) := by
  have hnoop : ∀ (r : Response) f, r.header.get "Vary" = "*" →
      Response.Vary r f = r := by
    intro r f hg
    simp [Response.Vary, hg]
  have hset : ∀ r : Response, r.header.get "Vary" ≠ "*" →
      (Response.Vary r "*").header = r.header.set "Vary" "*" := by
    intro r hg
    simp [Response.Vary, hg]
  have hadd : ∀ (r : Response) f, f ≠ "" → f ≠ "*" →
      r.header.get "Vary" ≠ "*" →
      (Response.Vary r f).header = r.header.add "Vary" f := by
    intro r f h1 h2 hg
    simp [Response.Vary, h1, h2, hg]
  refine ⟨?_, hnoop, hset, hadd, ?_, ?_⟩
  · intro r
    simp [Response.Vary]
  · intro r f
    by_cases hg : r.header.get "Vary" = "*"
    · rw [hnoop r "*" hg, hnoop r f hg, hg]
    · have hg1 : (Response.Vary r "*").header.get "Vary" = "*" := by
        rw [hset r hg, Header.get_set_self]
      rw [hnoop _ f hg1, hg1]
  · intro r f g h1 h2 h3 h4 hg
    have e1 := hadd r f h1 h2 hg
    have hg1 : (Response.Vary r f).header.get "Vary" ≠ "*" := by
      rw [e1]
      exact Header.get_add_ne r.header "Vary" f "*" hg h2
    have e2 := hadd (Response.Vary r f) g h3 h4 hg1
    rw [e2, e1, Header.values_add_self, Header.values_add_self, List.append_assoc]
    rfl

/-- Claim C8 witness: concrete merges — `Vary "*"` then `Vary "X"` leaves
the wildcard; `Vary "A"` then `Vary "B"` keeps both values. -/
theorem vary_merge_witness :
    (Response.Vary (Response.Vary sampleFresh "*") "X").header.get "Vary" = "*"
    ∧ (("A" : String) ≠ "" ∧ ("A" : String) ≠ "*" ∧ ("B" : String) ≠ ""
        ∧ ("B" : String) ≠ "*" ∧ sampleFresh.header.get "Vary" ≠ "*")
    ∧ (Response.Vary (Response.Vary sampleFresh "A") "B").header.values "Vary"
        = sampleFresh.header.values "Vary" ++ ["A", "B"] :=
  ⟨vary_merge.2.2.2.2.1 sampleFresh "X",
   ⟨by decide, by decide, by decide, by decide, by decide⟩,
   vary_merge.2.2.2.2.2 sampleFresh "A" "B" (by decide) (by decide) (by decide)
     (by decide) (by decide)⟩

/-- A response carrying the header set {Accept, X-Custom, Vary}. -/
def sampleHeaderResp : Response :=
  ⟨0, none, [], [], false, false,
   ⟨[("Accept", ["text/html"]), ("X-Custom", ["1"]), ("Vary", ["Accept"])]⟩,
   bareWriter⟩

/-- Claim C9: `ResetHeader` with the default keep-predicate retains exactly
the header entries whose key matches the default filter and deletes every
other entry; on {Accept, X-Custom, Vary} it keeps Accept and Vary and drops
X-Custom. -/
theorem resetHeader_default_selectivity :
    (∀ (r : Response) (kv : String × List String),
        kv ∈ (Response.ResetHeader r []).header.entries ↔
          kv ∈ r.header.entries ∧ defaultHeaderFilter kv.1 = true)
    ∧ (Response.ResetHeader sampleHeaderResp []).header.entries
        = [("Accept", ["text/html"]), ("Vary", ["Accept"])] := by
  constructor
  · intro r kv
    simp [Response.ResetHeader, List.mem_filter]
  · decide

/-- Claim C10: `ResetHeader` accepts any number of filter predicates but
uses only the first; every predicate after the first is ignored. -/
theorem resetHeader_uses_first_filter (r : Response) (p : String → Bool)
    (ps : List (String → Bool)) :
    Response.ResetHeader r (p :: ps) = Response.ResetHeader r [p] := rfl

end Gear
